import Mathlib

/-!
Verification of the ShaRP facade (src/sharp/base.py).

The ShaRP class binds a configuration, a reference dataset and a resolved measure
engine, and exposes the computation methods fit, individual, feature, all, pairwise
and pairwise_set. This file embeds the class shallowly: datasets are lists of rows of
rationals, the shared numpy random generator is explicit state threaded through every
measure-engine call, and collaborators living outside src (input validation, feature
name resolution, QoI and measure resolution, the parallel loop) are modelled from the
specification, each marked as such in its documentation.
-/

/-- Value of one feature cell or one influence; real-valued data modelled as rationals. -/
abbrev Value := ℚ

/-- Row of a dataset: one value per feature, column order significant. -/
abbrev Row := List Value

/-- Two-dimensional dataset: a list of rows. -/
abbrev Table := List Row

/-- State of the shared pseudo-random generator, modelled abstractly. -/
abbrev Rng := ℕ

/-- External ranking function supplied by the user: scores one row. -/
abbrev TargetFn := Row → Value

/-- Number of columns of a table, as numpy shape[1] or shape[-1] on a 2-d array. -/
def ncols (X : Table) : ℕ := (X.headD []).length

/-- Arithmetic mean of a list of values, as numpy mean; zero on the empty list. -/
def listMean (l : List Value) : Value := l.sum / (l.length : ℚ)

/-- Mean of column j of a table. -/
def columnMean (M : Table) (j : ℕ) : Value := listMean (M.map fun r => r.getD j 0)

/-- Error kind raised by the configuration checks of sharp.utils (spec section 7). -/
inductive CheckError
  | configurationError
deriving DecidableEq

/-- Resolved quantity of interest, cached on the session as qoi_: the variant name, the
external ranking function and the reference data X. ShaRP.individual reads its default
reference set from the X stored here. -/
structure QoI where
  name : String
  target_function : TargetFn
  X : Table

/-- Arguments handed by base.py to the resolved measure engine on every cell computation
(the keyword arguments of the measure_ call). -/
structure MeasureArgs where
  row : Row
  col_idx : ℕ
  set_cols_idx : Option (List ℕ)
  X : Table
  sample_size : ℕ
  coalition_size : ℕ
  replace : Bool

/-- Resolved measure engine, as produced by check_measure: computes one influence value
for one row and one feature, advancing the shared random generator. The engine lives
outside src and base.py treats it as a black box, so it is a parameter of the model. -/
abbrev MeasureFn := MeasureArgs → QoI → Rng → Value × Rng

/-- Modelled from the spec: check_inputs (sharp.utils, outside src) validates and
coerces the input data; validation itself is an excluded collaborator (spec sections 1
and 7), so on well-formed numeric tables it acts as the identity. -/
def check_inputs (X : Table) (y : Option (List Value)) : Table × Option (List Value) :=
  (X, y)

/-- Modelled from the spec: check_feature_names (sharp.utils, outside src) resolves one
feature name per column of X (spec section 3: a feature is identified by index or name,
resolved once); columns without headers are named by their index. -/
def check_feature_names (X : Table) : List String :=
  (List.range (ncols X)).map (fun i => toString i)

/-- Modelled from the spec: check_random_state (sklearn, external) turns the configured
seed into a generator; the generator state is modelled as the seed itself. -/
def check_random_state (seed : Option ℕ) : Rng := seed.getD 0

/-- QoI variant names recognized by the session (spec section 6). -/
def recognized_qois : List String := ["score", "rank", "top-k", "pairwise"]

/-- Modelled from the spec: check_qoi (sharp.utils, outside src) builds the payoff
object from a named variant plus the external ranking function and the reference data
(spec section 4.1), and fails with ConfigurationError when no QoI can be resolved,
that is when the name is not recognized or no ranking function is available. -/
def check_qoi (qoi : String) (target_function : Option TargetFn) (X : Table) :
    Except CheckError QoI :=
  if qoi ∈ recognized_qois then
    match target_function with
    | some f => Except.ok ⟨qoi, f, X⟩
    | none => Except.error CheckError.configurationError
  else Except.error CheckError.configurationError

/-- Constructor arguments of the ShaRP class (base.py, __init__): the immutable session
configuration. The n_jobs and verbose values only steer scheduling and progress
reporting (spec section 5) and never the computed values. -/
structure Config where
  qoi : Option (String ⊕ QoI)
  target_function : Option TargetFn
  measure : String
  sample_size : Option ℕ
  coalition_size : Option ℕ
  replace : Bool
  random_state : Option ℕ
  n_jobs : Int
  verbose : ℕ

/-- Fitted ShaRP session: the configuration plus the state set by fit
(_X, _y, _rng, qoi_, feature_names_, measure_). -/
structure ShaRP where
  cfg : Config
  X : Table
  y : Option (List Value)
  rng : Rng
  qoi_ : QoI
  feature_names_ : List String
  measure_ : MeasureFn

/-- Sequential state-threading map. Modelled from the spec: parallel_loop
(sharp.utils, outside src) maps a task over items with the results reassembled
positionally regardless of worker completion order (spec section 5), and the shared
random generator is threaded through the tasks in input order, the sequential
semantics the spec fixes as the reference behaviour for reproducibility. -/
def threadMap {α β σ : Type} (f : α → σ → β × σ) : List α → σ → List β × σ
  | [], st => ([], st)
  | a :: as, st =>
    let p := f a st
    let q := threadMap f as p.2
    (p.1 :: q.1, q.2)

/-- Per-call keyword overrides accepted by the computation methods of base.py. -/
structure Kwargs where
  set_cols_idx : Option (List ℕ)
  coalition_size : Option ℕ
  sample_size : Option ℕ
  verbose : Option ℕ

/-- Kwargs with no overrides set. -/
def noKw : Kwargs := ⟨none, none, none, none⟩

/-- Coalition size resolution chain shared by individual and feature in base.py:
the per-call override, else the session configuration, else the number of features of
the reference set minus one. -/
def resolveCoalitionSize (kwv cfgv : Option ℕ) (X : Table) : ℕ :=
  match kwv with
  | some c => c
  | none =>
    match cfgv with
    | some c => c
    | none => ncols X - 1

/-- Sample size resolution chain shared by individual and feature in base.py:
the per-call override, else the session configuration, else the number of rows of the
reference set. -/
def resolveSampleSize (kwv cfgv : Option ℕ) (X : Table) : ℕ :=
  match kwv with
  | some n => n
  | none =>
    match cfgv with
    | some n => n
    | none => X.length

/-- ShaRP.fit from base.py: validates and stores the reference data, initializes the
generator from the configured seed, resolves the QoI (the default variant rank when
none is configured, the configured name when it is a string, the object itself
otherwise), resolves the feature names and stores the resolved measure engine.
check_measure lives outside src, so the engine it resolves the configured measure name
to is supplied as the measureImpl argument. -/
def ShaRP.fit (cfg : Config) (measureImpl : MeasureFn) (X : Table)
    (y : Option (List Value)) : Except CheckError ShaRP :=
  let X_ := (check_inputs X y).1
  let y_ := (check_inputs X y).2
  let rng := check_random_state cfg.random_state
  let qres :=
    match cfg.qoi with
    | none => check_qoi "rank" cfg.target_function X_
    | some (Sum.inl name) => check_qoi name cfg.target_function X_
    | some (Sum.inr q) => Except.ok q
  match qres with
  | Except.error e => Except.error e
  | Except.ok q => Except.ok ⟨cfg, X_, y_, rng, q, check_feature_names X_, measureImpl⟩

/-- Default reference set of ShaRP.individual: the explicitly passed X (validated), or
the reference data stored on the resolved QoI when X is None. -/
def ShaRP.refX (s : ShaRP) (X? : Option Table) : Table :=
  match X? with
  | none => s.qoi_.X
  | some X => (check_inputs X none).1

/-- Sample resolution of ShaRP.individual: an integer sample is replaced by the
corresponding row of the reference set. -/
def ShaRP.resolveSample (X_ : Table) : Row ⊕ ℕ → Row
  | Sum.inl r => r
  | Sum.inr i => X_.getD i []

/-- Core of ShaRP.individual from base.py, with the generator state explicit: resolves
the reference set, the row and the sampling parameters, then maps the measure engine
over all feature indices in feature resolution order, threading the shared generator. -/
def ShaRP.individualRng (s : ShaRP) (rng : Rng) (sample : Row ⊕ ℕ) (X? : Option Table)
    (kw : Kwargs) : List Value × Rng :=
  let X_ := s.refX X?
  let set_cols_idx := kw.set_cols_idx
  let coalition_size := resolveCoalitionSize kw.coalition_size s.cfg.coalition_size X_
  let row := ShaRP.resolveSample X_ sample
  let sample_size := resolveSampleSize kw.sample_size s.cfg.sample_size X_
  threadMap
    (fun col_idx rg =>
      s.measure_
        ⟨row, col_idx, set_cols_idx, X_, sample_size, coalition_size, s.cfg.replace⟩
        s.qoi_ rg)
    (List.range s.feature_names_.length) rng

/-- ShaRP.individual from base.py: influence vector of one row, one entry per resolved
feature name; the only session state it advances is the shared generator. -/
def ShaRP.individual (s : ShaRP) (sample : Row ⊕ ℕ) (X? : Option Table) (kw : Kwargs) :
    List Value × ShaRP :=
  let p := s.individualRng s.rng sample X? kw
  (p.1, { s with rng := p.2 })

/-- Index of a feature name in the resolved feature name list, as list.index in
base.py; first occurrence, and the length of the list when the name is absent, where
Python would raise instead. -/
def idxOfStr (name : String) : List String → ℕ
  | [] => 0
  | x :: xs => if x = name then 0 else idxOfStr name xs + 1

/-- Core of ShaRP.feature from base.py, generator state explicit: resolves the feature
index, computes one influence per row of X with X itself as the reference set handed to
the measure engine, threading the generator through the row loop, and returns the mean
influence. X is required here: unlike individual, feature has no fallback to the fitted
reference set. The unused y argument of the Python signature is omitted. -/
def ShaRP.featureRng (s : ShaRP) (rng : Rng) (feature : String ⊕ ℕ) (X : Table)
    (kw : Kwargs) : Value × Rng :=
  let X_ := (check_inputs X none).1
  let col_idx :=
    match feature with
    | Sum.inl name => idxOfStr name s.feature_names_
    | Sum.inr i => i
  let set_cols_idx := kw.set_cols_idx
  let coalition_size := resolveCoalitionSize kw.coalition_size s.cfg.coalition_size X_
  let sample_size := resolveSampleSize kw.sample_size s.cfg.sample_size X_
  let p := threadMap
    (fun sample_idx rg =>
      s.measure_
        ⟨X_.getD sample_idx [], col_idx, set_cols_idx, X_, sample_size, coalition_size,
          s.cfg.replace⟩ s.qoi_ rg)
    (List.range X_.length) rng
  (listMean p.1, p.2)

/-- ShaRP.feature from base.py: mean influence of one feature across every row of X. -/
def ShaRP.feature (s : ShaRP) (feature : String ⊕ ℕ) (X : Table) (kw : Kwargs) :
    Value × ShaRP :=
  let p := s.featureRng s.rng feature X kw
  (p.1, { s with rng := p.2 })

/-- Core of ShaRP.all from base.py, generator state explicit: maps individual over
every row of X. The reference set handed to every inner call is the fitted reference
data _X, which is always present after fit, so the fallback branch of base.py that
would instead validate the passed X is never taken; the progress flag handed to the
inner calls is False. -/
def ShaRP.allRng (s : ShaRP) (rng : Rng) (X : Table) (kw : Kwargs) :
    List (List Value) × Rng :=
  let X_ref := s.X
  let X_ := (check_inputs X none).1
  threadMap
    (fun sample_idx rg =>
      s.individualRng rg (Sum.inl (X_.getD sample_idx [])) (some X_ref)
        { kw with verbose := some 0 })
    (List.range X_.length) rng

/-- ShaRP.all from base.py: the full influence matrix, one row of influences per row
of X. -/
def ShaRP.all (s : ShaRP) (X : Table) (kw : Kwargs) : List (List Value) × ShaRP :=
  let p := s.allRng s.rng X kw
  (p.1, { s with rng := p.2 })

/-- Sample argument accepted by ShaRP.pairwise: a single row, a two-dimensional sample,
or positional indices to be resolved against an externally supplied dataset X. -/
inductive PairSample
  | row (r : Row)
  | mat (m : Table)
  | idx (i : ℕ)
  | idxList (l : List ℕ)

/-- Index resolution step of ShaRP.pairwise: integer or list samples are replaced by
the corresponding rows of the X keyword dataset when one is supplied; without X they
stay unresolved, where Python would fail on the subsequent attribute access. -/
def resolvePairSample (X? : Option Table) : PairSample → PairSample
  | PairSample.idx i =>
    match X? with
    | some X => PairSample.row (X.getD i [])
    | none => PairSample.idx i
  | PairSample.idxList l =>
    match X? with
    | some X => PairSample.mat (l.map fun i => X.getD i [])
    | none => PairSample.idxList l
  | p => p

/-- Reshape step of ShaRP.pairwise on sample2: a one-dimensional sample becomes a
single-row table, a two-dimensional sample is left unchanged. -/
def PairSample.toRows : PairSample → Table
  | PairSample.row r => [r]
  | PairSample.mat m => m
  | _ => []

/-- Row passed on to individual as sample1. base.py passes a two-dimensional sample1
through unchanged; only its first row is represented here, and unresolved indices are
outside the model. -/
def PairSample.toRow : PairSample → Row
  | PairSample.row r => r
  | PairSample.mat m => m.headD []
  | _ => []

/-- Last dimension of a sample, as numpy shape[-1], used by ShaRP.pairwise for the
coalition size default. -/
def PairSample.lastDim : PairSample → ℕ
  | PairSample.row r => r.length
  | PairSample.mat m => ncols m
  | _ => 0

/-- Sample size chain of ShaRP.pairwise: the per-call override, else the session value
clamped to the number of rows of sample2, else the number of rows of sample2. -/
def pairwiseSampleSize (kwv cfgv : Option ℕ) (m2 : ℕ) : ℕ :=
  match kwv with
  | some n => n
  | none =>
    match cfgv with
    | some n => if m2 < n then m2 else n
    | none => m2

/-- Coalition size chain of ShaRP.pairwise: the per-call override, else the session
value, else the last dimension of sample1 minus one. -/
def pairwiseCoalitionSize (kwv cfgv : Option ℕ) (s1dim : ℕ) : ℕ :=
  match kwv with
  | some c => c
  | none =>
    match cfgv with
    | some c => c
    | none => s1dim - 1

/-- Core of ShaRP.pairwise from base.py, generator state explicit: resolves positional
samples against the X keyword dataset, reshapes a one-dimensional sample2 into a
single-row table, derives the effective sample and coalition sizes, and delegates to
individual with sample2 as the reference set. Keyword arguments that base.py would
forward twice to individual (X, sample_size, coalition_size, each raising a duplicate
keyword error in Python) are represented once, by the delegated values. -/
def ShaRP.pairwiseRng (s : ShaRP) (rng : Rng) (sample1 sample2 : PairSample)
    (X? : Option Table) (kw : Kwargs) : List Value × Rng :=
  let s1 := resolvePairSample X? sample1
  let s2 := (resolvePairSample X? sample2).toRows
  let sample_size := pairwiseSampleSize kw.sample_size s.cfg.sample_size s2.length
  let coalition_size :=
    pairwiseCoalitionSize kw.coalition_size s.cfg.coalition_size s1.lastDim
  s.individualRng rng (Sum.inl s1.toRow) (some s2)
    ⟨kw.set_cols_idx, some coalition_size, some sample_size, kw.verbose⟩

/-- ShaRP.pairwise from base.py: influence vector of sample1 computed against sample2
as the reference set. -/
def ShaRP.pairwise (s : ShaRP) (sample1 sample2 : PairSample) (X? : Option Table)
    (kw : Kwargs) : List Value × ShaRP :=
  let p := s.pairwiseRng s.rng sample1 sample2 X? kw
  (p.1, { s with rng := p.2 })

/-- Core of ShaRP.pairwise_set from base.py, generator state explicit: maps pairwise
over aligned pairs of the two sample sequences (zip truncates at the shorter one),
threading the generator; the progress flag handed to the inner calls is False. -/
def ShaRP.pairwise_setRng (s : ShaRP) (rng : Rng) (samples1 samples2 : List PairSample)
    (X? : Option Table) (kw : Kwargs) : List (List Value) × Rng :=
  threadMap
    (fun pr rg => s.pairwiseRng rg pr.1 pr.2 X? { kw with verbose := some 0 })
    (samples1.zip samples2) rng

/-- ShaRP.pairwise_set from base.py: one row of influences per aligned sample pair. -/
def ShaRP.pairwise_set (s : ShaRP) (samples1 samples2 : List PairSample)
    (X? : Option Table) (kw : Kwargs) : List (List Value) × ShaRP :=
  let p := s.pairwise_setRng s.rng samples1 samples2 X? kw
  (p.1, { s with rng := p.2 })

/-- Example ranking function: the first feature value of the row. -/
def tfW : TargetFn := fun r => r.headD 0

/-- Example measure engine: returns the mean of the reference column of the target
feature and leaves the generator untouched; its value does not depend on the generator
state. -/
def colMeanMeasure : MeasureFn := fun a _q rg => (columnMean a.X a.col_idx, rg)

/-- Example configuration: rank QoI via tfW, every size left to its default, seed 0. -/
def cfgW : Config := ⟨none, some tfW, "shapley", none, none, false, some 0, 1, 0⟩

/-- Example configuration with a session-level sample size of 5. -/
def cfgW5 : Config := ⟨none, some tfW, "shapley", some 5, none, false, some 0, 1, 0⟩

/-- One-column reference table with a single zero row. -/
def X0 : Table := [[0]]

/-- One-column table with two rows, both 100. -/
def X1 : Table := [[100], [100]]

/-- The session obtained by fitting cfgW with the colMeanMeasure engine on X0. -/
def sW : ShaRP := ⟨cfgW, X0, none, 0, ⟨"rank", tfW, X0⟩, ["0"], colMeanMeasure⟩

/-- The session obtained by fitting cfgW5 with the colMeanMeasure engine on X0. -/
def sW5 : ShaRP := ⟨cfgW5, X0, none, 0, ⟨"rank", tfW, X0⟩, ["0"], colMeanMeasure⟩

theorem fit_cfgW : ShaRP.fit cfgW colMeanMeasure X0 none = Except.ok sW := rfl

theorem fit_cfgW5 : ShaRP.fit cfgW5 colMeanMeasure X0 none = Except.ok sW5 := rfl

theorem threadMap_fst_length {α β σ : Type} (f : α → σ → β × σ) (l : List α) (st : σ) :
    ((threadMap f l st).1).length = l.length := by
  induction l generalizing st with
  | nil => rfl
  | cons a as ih => simp [threadMap, ih]

theorem threadMap_fst_mem {α β σ : Type} (f : α → σ → β × σ) (l : List α) (st : σ)
    (b : β) (hb : b ∈ (threadMap f l st).1) : ∃ a st', a ∈ l ∧ b = (f a st').1 := by
  induction l generalizing st with
  | nil => simp [threadMap] at hb
  | cons a as ih =>
    simp only [threadMap, List.mem_cons] at hb
    rcases hb with h | h
    · exact ⟨a, st, List.mem_cons_self a as, h⟩
    · rcases ih (f a st).2 h with ⟨a', st', ha, hb'⟩
      exact ⟨a', st', List.mem_cons_of_mem _ ha, hb'⟩

theorem threadMap_fst_getD {α β σ : Type} (f : α → σ → β × σ) (l : List α) (st : σ)
    (i : ℕ) (hi : i < l.length) (a₀ : α) (b₀ : β) :
    ∃ st', (threadMap f l st).1.getD i b₀ = (f (l.getD i a₀) st').1 := by
  induction l generalizing st i with
  | nil => simp at hi
  | cons a as ih =>
    cases i with
    | zero => exact ⟨st, rfl⟩
    | succ n =>
      have hn : n < as.length := by simpa using hi
      rcases ih (f a st).2 n hn with ⟨st', h⟩
      exact ⟨st', h⟩

theorem threadMap_fst_const {α β σ : Type} (f : α → σ → β × σ)
    (hf : ∀ a u v, (f a u).1 = (f a v).1) (l : List α) (st st₀ : σ) :
    (threadMap f l st).1 = l.map (fun a => (f a st₀).1) := by
  induction l generalizing st with
  | nil => rfl
  | cons a as ih => simp [threadMap, ih ((f a st).2), hf a st st₀]

theorem mapRange_getD {α β : Type} (l : List α) (h : α → β) (d : α) :
    (List.range l.length).map (fun i => h (l.getD i d)) = l.map h := by
  induction l with
  | nil => rfl
  | cons a as ih =>
    rw [List.length_cons, List.range_succ_eq_map, List.map_cons, List.map_map]
    exact congrArg (h a :: ·) ih

theorem getD_map_range {β : Type} (n : ℕ) (g : ℕ → β) (i : ℕ) (hi : i < n) (b₀ : β) :
    ((List.range n).map g).getD i b₀ = g i := by
  rw [List.getD_eq_getElem?_getD, List.getElem?_map, List.getElem?_range hi]
  rfl

theorem range_getD (n i : ℕ) (hi : i < n) : (List.range n).getD i 0 = i := by
  rw [List.getD_eq_getElem?_getD, List.getElem?_range hi]
  rfl

theorem zip_getD {α β : Type} (l1 : List α) (l2 : List β) (i : ℕ)
    (hi : i < min l1.length l2.length) (a₀ : α) (b₀ : β) :
    (l1.zip l2).getD i (a₀, b₀) = (l1.getD i a₀, l2.getD i b₀) := by
  have h1 : i < l1.length := lt_of_lt_of_le hi (min_le_left _ _)
  have h2 : i < l2.length := lt_of_lt_of_le hi (min_le_right _ _)
  have hz : i < (l1.zip l2).length := by
    rw [List.length_zip]
    exact hi
  rw [List.getD_eq_getElem _ _ hz, List.getD_eq_getElem _ _ h1,
    List.getD_eq_getElem _ _ h2, List.getElem_zip]

theorem individualRng_fst_length (s : ShaRP) (rng : Rng) (sample : Row ⊕ ℕ)
    (X? : Option Table) (kw : Kwargs) :
    (s.individualRng rng sample X? kw).1.length = s.feature_names_.length := by
  rw [ShaRP.individualRng]
  rw [threadMap_fst_length]
  exact List.length_range _

theorem individualRng_fst_const (s : ShaRP)
    (hm : ∀ a u v, (s.measure_ a s.qoi_ u).1 = (s.measure_ a s.qoi_ v).1)
    (rng rng₀ : Rng) (sample : Row ⊕ ℕ) (X? : Option Table) (kw : Kwargs) :
    (s.individualRng rng sample X? kw).1 =
      (List.range s.feature_names_.length).map
        (fun col_idx =>
          (s.measure_
            ⟨ShaRP.resolveSample (s.refX X?) sample, col_idx, kw.set_cols_idx, s.refX X?,
              resolveSampleSize kw.sample_size s.cfg.sample_size (s.refX X?),
              resolveCoalitionSize kw.coalition_size s.cfg.coalition_size (s.refX X?),
              s.cfg.replace⟩ s.qoi_ rng₀).1) := by
  exact threadMap_fst_const
    (fun col_idx rg =>
      s.measure_
        ⟨ShaRP.resolveSample (s.refX X?) sample, col_idx, kw.set_cols_idx, s.refX X?,
          resolveSampleSize kw.sample_size s.cfg.sample_size (s.refX X?),
          resolveCoalitionSize kw.coalition_size s.cfg.coalition_size (s.refX X?),
          s.cfg.replace⟩ s.qoi_ rg)
    (fun a u v => hm _ u v) (List.range s.feature_names_.length) rng rng₀

/-- C3: for every fitted session, individual returns a vector whose length equals the
number of resolved feature names, and whose i-th entry is the influence the measure
engine computes for the i-th feature in feature resolution order (results are
reassembled positionally, independently of execution order), evaluated at the position
of the shared generator reached at that feature. -/
theorem individual_length_and_order (s : ShaRP) (sample : Row ⊕ ℕ) (X? : Option Table)
    (kw : Kwargs) :
    (s.individual sample X? kw).1.length = s.feature_names_.length ∧
      ∀ i, i < s.feature_names_.length →
        ∃ rg : Rng,
          (s.individual sample X? kw).1.getD i 0 =
            (s.measure_
              ⟨ShaRP.resolveSample (s.refX X?) sample, i, kw.set_cols_idx, s.refX X?,
                resolveSampleSize kw.sample_size s.cfg.sample_size (s.refX X?),
                resolveCoalitionSize kw.coalition_size s.cfg.coalition_size (s.refX X?),
                s.cfg.replace⟩ s.qoi_ rg).1 := by
  constructor
  · exact individualRng_fst_length s s.rng sample X? kw
  · intro i hi
    have hi' : i < (List.range s.feature_names_.length).length := by simpa using hi
    rcases threadMap_fst_getD
        (fun col_idx rg =>
          s.measure_
            ⟨ShaRP.resolveSample (s.refX X?) sample, col_idx, kw.set_cols_idx, s.refX X?,
              resolveSampleSize kw.sample_size s.cfg.sample_size (s.refX X?),
              resolveCoalitionSize kw.coalition_size s.cfg.coalition_size (s.refX X?),
              s.cfg.replace⟩ s.qoi_ rg)
        (List.range s.feature_names_.length) s.rng i hi' 0 0 with ⟨rg, h⟩
    refine ⟨rg, ?_⟩
    rw [range_getD _ _ hi] at h
    exact h

theorem individual_length_and_order_witness :
    ∃ rg : Rng,
      (sW.individual (Sum.inl [0]) none noKw).1.getD 0 0 =
        (sW.measure_
          ⟨ShaRP.resolveSample (sW.refX none) (Sum.inl [0]), 0, noKw.set_cols_idx,
            sW.refX none,
            resolveSampleSize noKw.sample_size sW.cfg.sample_size (sW.refX none),
            resolveCoalitionSize noKw.coalition_size sW.cfg.coalition_size (sW.refX none),
            sW.cfg.replace⟩ sW.qoi_ rg).1 :=
  (individual_length_and_order sW (Sum.inl [0]) none noKw).2 0 (by decide)

/-- C7: individual, feature, all, pairwise and pairwise_set leave every component of
the session state produced by fit unchanged, with the sole exception of the shared
generator: each call returns the input session with only the rng field advanced, so in
particular the stored reference data, the resolved QoI, the resolved feature names, the
resolved measure and the configuration keep their values. -/
theorem calls_preserve_session (s : ShaRP) (sample : Row ⊕ ℕ) (X? : Option Table)
    (kw : Kwargs) (f : String ⊕ ℕ) (X : Table) (p1 p2 : PairSample)
    (l1 l2 : List PairSample) (Xp : Option Table) :
    ((s.individual sample X? kw).2 = { s with rng := (s.individual sample X? kw).2.rng }) ∧
      ((s.feature f X kw).2 = { s with rng := (s.feature f X kw).2.rng }) ∧
      ((s.all X kw).2 = { s with rng := (s.all X kw).2.rng }) ∧
      ((s.pairwise p1 p2 Xp kw).2 = { s with rng := (s.pairwise p1 p2 Xp kw).2.rng }) ∧
      ((s.pairwise_set l1 l2 Xp kw).2 =
        { s with rng := (s.pairwise_set l1 l2 Xp kw).2.rng }) ∧
      (s.individual sample X? kw).2.qoi_ = s.qoi_ ∧
      (s.individual sample X? kw).2.measure_ = s.measure_ ∧
      (s.individual sample X? kw).2.feature_names_ = s.feature_names_ ∧
      (s.individual sample X? kw).2.X = s.X ∧
      (s.individual sample X? kw).2.y = s.y ∧
      (s.individual sample X? kw).2.cfg = s.cfg :=
  ⟨rfl, rfl, rfl, rfl, rfl, rfl, rfl, rfl, rfl, rfl, rfl⟩

/-- C6: two individual calls with identical configuration, identical inputs and an
identical explicit random seed, each performed on a session freshly fitted with that
configuration, produce identical influence vectors. -/
theorem individual_deterministic_under_seed (cfg1 cfg2 : Config) (impl : MeasureFn)
    (X : Table) (y : Option (List Value)) (seed : ℕ) (s1 s2 : ShaRP)
    (sample : Row ⊕ ℕ) (X? : Option Table) (kw : Kwargs)
    (hcfg : cfg1 = cfg2) (hseed : cfg1.random_state = some seed)
    (h1 : ShaRP.fit cfg1 impl X y = Except.ok s1)
    (h2 : ShaRP.fit cfg2 impl X y = Except.ok s2) :
    (s1.individual sample X? kw).1 = (s2.individual sample X? kw).1 := by
  subst hcfg
  rw [h1] at h2
  injection h2 with h
  rw [h]

theorem individual_deterministic_witness :
    (sW.individual (Sum.inl [0]) none noKw).1 = (sW.individual (Sum.inl [0]) none noKw).1 :=
  individual_deterministic_under_seed cfgW cfgW colMeanMeasure X0 none 0 sW sW
    (Sum.inl [0]) none noKw rfl rfl fit_cfgW fit_cfgW

/-- C2: all on an m-row dataset X returns a matrix with one row of influences per input
row and one column per resolved feature, and every row of the matrix is an individual
computation whose reference set is the fitted reference data, identical for the whole
call (each inner computation differs from a direct individual call only in the position
of the threaded shared generator). -/
theorem all_shape_and_fixed_reference (s : ShaRP) (X : Table) (kw : Kwargs) (m d : ℕ)
    (hm : X.length = m) (hd : ∀ r ∈ X, r.length = d)
    (hfn : s.feature_names_.length = d) :
    (s.all X kw).1.length = m ∧
      (∀ row ∈ (s.all X kw).1, row.length = d) ∧
      ∀ i, i < m →
        ∃ rg : Rng,
          (s.all X kw).1.getD i [] =
            (ShaRP.individual { s with rng := rg } (Sum.inl (X.getD i []))
              (some s.X) { kw with verbose := some 0 }).1 := by
  refine ⟨?_, ?_, ?_⟩
  · show (s.allRng s.rng X kw).1.length = m
    rw [ShaRP.allRng, threadMap_fst_length, List.length_range]
    exact hm
  · intro row hrow
    rcases threadMap_fst_mem
        (fun sample_idx rg =>
          s.individualRng rg (Sum.inl (((check_inputs X none).1).getD sample_idx []))
            (some s.X) { kw with verbose := some 0 })
        (List.range ((check_inputs X none).1).length) s.rng row hrow
      with ⟨a, st', _, hr⟩
    rw [hr]
    rw [individualRng_fst_length]
    exact hfn
  · intro i hi
    have hi' : i < (List.range ((check_inputs X none).1).length).length := by
      simpa using hm ▸ hi
    rcases threadMap_fst_getD
        (fun sample_idx rg =>
          s.individualRng rg (Sum.inl (((check_inputs X none).1).getD sample_idx []))
            (some s.X) { kw with verbose := some 0 })
        (List.range ((check_inputs X none).1).length) s.rng i hi' 0 [] with ⟨rg, h⟩
    refine ⟨rg, ?_⟩
    rw [range_getD _ _ (by simpa using hm ▸ hi)] at h
    exact h

theorem all_shape_witness :
    (sW.all X0 noKw).1.length = 1 ∧
      (∀ row ∈ (sW.all X0 noKw).1, row.length = 1) ∧
      ∀ i, i < 1 →
        ∃ rg : Rng,
          (sW.all X0 noKw).1.getD i [] =
            (ShaRP.individual { sW with rng := rg } (Sum.inl (X0.getD i []))
              (some sW.X) { noKw with verbose := some 0 }).1 :=
  all_shape_and_fixed_reference sW X0 noKw 1 1 rfl (by decide) rfl

/-- C4: pairwise on two rows returns exactly an individual computation on sample1 with
the one-dimensional sample2 reshaped into a single-row table and used as the reference
set, the delegated sample and coalition sizes being derived by the pairwise chains;
when no per-call or session-level sizes are set and the two rows have the same width,
the delegation forwards the callers keyword arguments unchanged. -/
theorem pairwise_delegates_to_individual (s : ShaRP) (r1 r2 : Row) (X? : Option Table)
    (kw : Kwargs) :
    (s.pairwise (PairSample.row r1) (PairSample.row r2) X? kw =
        s.individual (Sum.inl r1) (some [r2])
          ⟨kw.set_cols_idx,
            some (pairwiseCoalitionSize kw.coalition_size s.cfg.coalition_size r1.length),
            some (pairwiseSampleSize kw.sample_size s.cfg.sample_size 1), kw.verbose⟩) ∧
      (kw.sample_size = none → kw.coalition_size = none →
        s.cfg.sample_size = none → s.cfg.coalition_size = none →
        r1.length = r2.length →
        s.pairwise (PairSample.row r1) (PairSample.row r2) X? kw =
          s.individual (Sum.inl r1) (some [r2]) kw) := by
  constructor
  · rfl
  · intro h1 h2 h3 h4 hlen
    obtain ⟨sc, co, sa, v⟩ := kw
    simp only at h1 h2
    subst h1 h2
    simp only [ShaRP.pairwise, ShaRP.individual, ShaRP.pairwiseRng, ShaRP.individualRng,
      ShaRP.refX, check_inputs, resolveSampleSize, resolveCoalitionSize,
      pairwiseSampleSize, pairwiseCoalitionSize, resolvePairSample, PairSample.toRow,
      PairSample.toRows, PairSample.lastDim, ncols, List.headD_cons, h3, h4, hlen]

theorem pairwise_delegates_witness :
    sW.pairwise (PairSample.row [5]) (PairSample.row [7]) none noKw =
      sW.individual (Sum.inl [5]) (some [[7]]) noKw :=
  (pairwise_delegates_to_individual sW [5] [7] none noKw).2 rfl rfl rfl rfl rfl

/-- C5: in individual and feature calls where neither a per-call override nor a
session-level value is given, the sample size defaults to the number of rows of the
reference set of the call and the coalition size to the reference sets feature count
minus one (the calls are indistinguishable from calls passing those values explicitly);
per-call overrides determine the values resolved for that call only and the session
configuration is returned unchanged. -/
theorem default_sizes_and_overrides (s : ShaRP) (sample : Row ⊕ ℕ) (X? : Option Table)
    (X : Table) (f : String ⊕ ℕ) (sc : Option (List ℕ)) (v : Option ℕ)
    (hs : s.cfg.sample_size = none) (hc : s.cfg.coalition_size = none) :
    (s.individual sample X? ⟨sc, none, none, v⟩ =
        s.individual sample X?
          ⟨sc, some (ncols (s.refX X?) - 1), some ((s.refX X?).length), v⟩) ∧
      (s.feature f X ⟨sc, none, none, v⟩ =
        s.feature f X ⟨sc, some (ncols X - 1), some X.length, v⟩) ∧
      ∀ n c : ℕ,
        resolveSampleSize (some n) s.cfg.sample_size (s.refX X?) = n ∧
          resolveCoalitionSize (some c) s.cfg.coalition_size (s.refX X?) = c ∧
          (s.individual sample X? ⟨sc, some c, some n, v⟩).2.cfg = s.cfg ∧
          (s.feature f X ⟨sc, some c, some n, v⟩).2.cfg = s.cfg := by
  refine ⟨?_, ?_, fun n c => ⟨rfl, rfl, rfl, rfl⟩⟩
  · simp only [ShaRP.individual, ShaRP.individualRng, resolveSampleSize,
      resolveCoalitionSize, hs, hc]
  · simp only [ShaRP.feature, ShaRP.featureRng, resolveSampleSize,
      resolveCoalitionSize, check_inputs, hs, hc]

theorem default_sizes_witness :
    sW.individual (Sum.inl [0]) none ⟨none, none, none, none⟩ =
      sW.individual (Sum.inl [0]) none
        ⟨none, some (ncols (sW.refX none) - 1), some ((sW.refX none).length), none⟩ :=
  (default_sizes_and_overrides sW (Sum.inl [0]) none X0 (Sum.inr 0) none none rfl rfl).1

theorem check_qoi_rank_ok (f : TargetFn) (X : Table) :
    check_qoi "rank" (some f) X = Except.ok ⟨"rank", f, X⟩ := by
  rw [check_qoi, if_pos (show "rank" ∈ recognized_qois by decide)]

theorem check_qoi_rank_err (X : Table) :
    check_qoi "rank" none X = Except.error CheckError.configurationError := by
  rw [check_qoi, if_pos (show "rank" ∈ recognized_qois by decide)]

/-- C8: on a configuration whose qoi is None, fit resolves the session QoI as the rank
quantity of interest constructed from the configured target function and the validated
X, and fit fails with ConfigurationError when no QoI can be resolved because neither a
recognized QoI name nor a custom target function is supplied. -/
theorem fit_resolves_rank_qoi (cfg : Config) (impl : MeasureFn) (X : Table)
    (y : Option (List Value)) (hq : cfg.qoi = none) :
    (∀ f, cfg.target_function = some f →
        ∃ s, ShaRP.fit cfg impl X y = Except.ok s ∧
          s.qoi_ = ⟨"rank", f, (check_inputs X y).1⟩) ∧
      (cfg.target_function = none →
        ShaRP.fit cfg impl X y = Except.error CheckError.configurationError) := by
  constructor
  · intro f hf
    refine ⟨⟨cfg, (check_inputs X y).1, (check_inputs X y).2,
      check_random_state cfg.random_state, ⟨"rank", f, (check_inputs X y).1⟩,
      check_feature_names (check_inputs X y).1, impl⟩, ?_, rfl⟩
    rw [ShaRP.fit]
    simp only [hq, hf, check_qoi_rank_ok]
  · intro hf
    rw [ShaRP.fit]
    simp only [hq, hf, check_qoi_rank_err]

theorem fit_resolves_rank_qoi_witness :
    ∃ s, ShaRP.fit cfgW colMeanMeasure X0 none = Except.ok s ∧
      s.qoi_ = ⟨"rank", tfW, (check_inputs X0 none).1⟩ :=
  (fit_resolves_rank_qoi cfgW colMeanMeasure X0 none rfl).1 tfW rfl

/-- C9: pairwise_set returns a matrix with exactly one row of influences per aligned
pair, its number of rows being the length of the shorter input sequence, and its i-th
row is a pairwise computation on the i-th pair of the two sequences, performed on the
same session state up to the position of the threaded shared generator. -/
theorem pairwise_set_aligned (s : ShaRP) (l1 l2 : List PairSample) (X? : Option Table)
    (kw : Kwargs) :
    (s.pairwise_set l1 l2 X? kw).1.length = min l1.length l2.length ∧
      ∀ i, i < min l1.length l2.length →
        ∃ rg : Rng,
          (s.pairwise_set l1 l2 X? kw).1.getD i [] =
            (ShaRP.pairwise { s with rng := rg } (l1.getD i (PairSample.row []))
              (l2.getD i (PairSample.row [])) X? { kw with verbose := some 0 }).1 := by
  constructor
  · show (s.pairwise_setRng s.rng l1 l2 X? kw).1.length = min l1.length l2.length
    rw [ShaRP.pairwise_setRng, threadMap_fst_length, List.length_zip]
  · intro i hi
    have hi' : i < (l1.zip l2).length := by
      rw [List.length_zip]
      exact hi
    rcases threadMap_fst_getD
        (fun pr rg => s.pairwiseRng rg pr.1 pr.2 X? { kw with verbose := some 0 })
        (l1.zip l2) s.rng i hi' (PairSample.row [], PairSample.row []) [] with ⟨rg, h⟩
    refine ⟨rg, ?_⟩
    rw [zip_getD l1 l2 i hi] at h
    exact h

theorem pairwise_set_aligned_witness :
    ∃ rg : Rng,
      (sW.pairwise_set [PairSample.row [1]] [PairSample.row [2]] none noKw).1.getD 0 [] =
        (ShaRP.pairwise { sW with rng := rg } (PairSample.row [1]) (PairSample.row [2])
          none { noKw with verbose := some 0 }).1 :=
  (pairwise_set_aligned sW [PairSample.row [1]] [PairSample.row [2]] none noKw).2 0
    (by decide)

/-- C10: in pairwise with no per-call sample size override, a session-level sample size
is clamped to the number of rows of sample2 whenever it exceeds it, so with a
single-row sample2 the effective sample size delegated to individual is one; with no
session-level value it defaults to the number of rows of sample2. -/
theorem pairwise_sample_size_clamped (s : ShaRP) (p1 : PairSample) (r2 : Row)
    (X? : Option Table) (kw : Kwargs) (n : ℕ) (hk : kw.sample_size = none) :
    (∀ m2, pairwiseSampleSize kw.sample_size (some n) m2 = min n m2) ∧
      (s.cfg.sample_size = none →
        ∀ m2, pairwiseSampleSize kw.sample_size s.cfg.sample_size m2 = m2) ∧
      (s.cfg.sample_size = some n → 0 < n →
        s.pairwise p1 (PairSample.row r2) X? kw =
          s.individual (Sum.inl (resolvePairSample X? p1).toRow) (some [r2])
            ⟨kw.set_cols_idx,
              some (pairwiseCoalitionSize kw.coalition_size s.cfg.coalition_size
                (resolvePairSample X? p1).lastDim),
              some 1, kw.verbose⟩) := by
  refine ⟨?_, ?_, ?_⟩
  · intro m2
    rw [hk, pairwiseSampleSize]
    split <;> omega
  · intro h m2
    rw [hk, h, pairwiseSampleSize]
  · intro hcfg hn
    have h1 : pairwiseSampleSize kw.sample_size s.cfg.sample_size
        ((resolvePairSample X? (PairSample.row r2)).toRows).length = 1 := by
      rw [hk, hcfg, pairwiseSampleSize]
      show (if List.length [r2] < n then List.length [r2] else n) = 1
      rw [List.length_singleton]
      split <;> omega
    show (let p := s.pairwiseRng s.rng p1 (PairSample.row r2) X? kw
      (p.1, { s with rng := p.2 })) = _
    rw [ShaRP.pairwiseRng, h1]
    rfl

theorem pairwise_clamp_witness :
    sW5.pairwise (PairSample.row [3]) (PairSample.row [4]) none noKw =
      sW5.individual (Sum.inl (resolvePairSample none (PairSample.row [3])).toRow)
        (some [[4]])
        ⟨noKw.set_cols_idx,
          some (pairwiseCoalitionSize noKw.coalition_size sW5.cfg.coalition_size
            (resolvePairSample none (PairSample.row [3])).lastDim),
          some 1, noKw.verbose⟩ :=
  (pairwise_sample_size_clamped sW5 (PairSample.row [3]) [4] none noKw 5 rfl).2.2 rfl
    (by decide)

/-- C1 counterexample: on the session sW fitted with reference X0 and with a dataset X1
distinct from the fitted reference, feature hands X1 itself to the measure engine as
the reference set while all keeps the fitted X0, so the scalar returned by feature
differs from the column mean of the corresponding column of the matrix all returns,
even for a measure engine that is deterministic in the generator state. -/
theorem feature_ne_all_column_mean :
    ¬ ((sW.feature (Sum.inr 0) X1 noKw).1 = columnMean (sW.all X1 noKw).1 0) := by
  have hr : List.range 2 = [0, 1] := rfl
  have h1 : (sW.feature (Sum.inr 0) X1 noKw).1 = 100 := by
    norm_num [ShaRP.feature, ShaRP.featureRng, check_inputs, resolveSampleSize,
      resolveCoalitionSize, sW, cfgW, X1, noKw, hr, threadMap, colMeanMeasure,
      columnMean, listMean]
  have h2 : columnMean (sW.all X1 noKw).1 0 = 0 := by
    norm_num [ShaRP.all, ShaRP.allRng, ShaRP.individualRng, ShaRP.refX, ShaRP.resolveSample,
      check_inputs, resolveSampleSize, resolveCoalitionSize, sW, cfgW, X0, X1, noKw, hr,
      threadMap, colMeanMeasure, columnMean, listMean]
  rw [h1, h2]
  norm_num

/-- C1 amended: feature returns the arithmetic mean, over the rows of X, of the per-row
influences of the target feature that the measure engine computes with X itself as
the reference set; when the measure engine is insensitive to the generator state and X
is the fitted reference set, that scalar also equals the column mean of the
corresponding column of the matrix returned by all. -/
theorem feature_mean_of_row_influences (s : ShaRP) (f : ℕ) (X : Table) (kw : Kwargs)
    (hm : ∀ a u v, (s.measure_ a s.qoi_ u).1 = (s.measure_ a s.qoi_ v).1) :
    (s.feature (Sum.inr f) X kw).1 =
        listMean (X.map fun row =>
          (s.measure_
            ⟨row, f, kw.set_cols_idx, X,
              resolveSampleSize kw.sample_size s.cfg.sample_size X,
              resolveCoalitionSize kw.coalition_size s.cfg.coalition_size X,
              s.cfg.replace⟩ s.qoi_ s.rng).1) ∧
      (X = s.X → f < s.feature_names_.length →
        (s.feature (Sum.inr f) X kw).1 = columnMean (s.all X kw).1 f) := by
  have hpart1 : ∀ Y : Table,
      (s.feature (Sum.inr f) Y kw).1 =
        listMean (Y.map fun row =>
          (s.measure_
            ⟨row, f, kw.set_cols_idx, Y,
              resolveSampleSize kw.sample_size s.cfg.sample_size Y,
              resolveCoalitionSize kw.coalition_size s.cfg.coalition_size Y,
              s.cfg.replace⟩ s.qoi_ s.rng).1) := by
    intro Y
    exact congrArg listMean
      ((threadMap_fst_const
          (fun sample_idx rg =>
            s.measure_
              ⟨Y.getD sample_idx [], f, kw.set_cols_idx, Y,
                resolveSampleSize kw.sample_size s.cfg.sample_size Y,
                resolveCoalitionSize kw.coalition_size s.cfg.coalition_size Y,
                s.cfg.replace⟩ s.qoi_ rg)
          (fun a u v => hm _ u v) (List.range Y.length) s.rng s.rng).trans
        (mapRange_getD Y
          (fun row =>
            (s.measure_
              ⟨row, f, kw.set_cols_idx, Y,
                resolveSampleSize kw.sample_size s.cfg.sample_size Y,
                resolveCoalitionSize kw.coalition_size s.cfg.coalition_size Y,
                s.cfg.replace⟩ s.qoi_ s.rng).1) []))
  refine ⟨hpart1 X, ?_⟩
  intro hX hf
  subst hX
  have e1 : (s.all s.X kw).1 =
      (List.range s.X.length).map
        (fun i => (s.individualRng s.rng (Sum.inl (s.X.getD i [])) (some s.X)
          { kw with verbose := some 0 }).1) :=
    threadMap_fst_const
      (fun sample_idx rg =>
        s.individualRng rg (Sum.inl (s.X.getD sample_idx [])) (some s.X)
          { kw with verbose := some 0 })
      (fun a u v => by
        rw [individualRng_fst_const s hm u s.rng, individualRng_fst_const s hm v s.rng])
      (List.range s.X.length) s.rng s.rng
  have e2 : ∀ i : ℕ,
      ((s.individualRng s.rng (Sum.inl (s.X.getD i [])) (some s.X)
        { kw with verbose := some 0 }).1).getD f 0 =
        (s.measure_
          ⟨s.X.getD i [], f, kw.set_cols_idx, s.X,
            resolveSampleSize kw.sample_size s.cfg.sample_size s.X,
            resolveCoalitionSize kw.coalition_size s.cfg.coalition_size s.X,
            s.cfg.replace⟩ s.qoi_ s.rng).1 := by
    intro i
    rw [individualRng_fst_const s hm s.rng s.rng]
    exact getD_map_range s.feature_names_.length _ f hf 0
  rw [hpart1 s.X, columnMean, e1, List.map_map]
  refine congrArg listMean ?_
  rw [← mapRange_getD s.X
    (fun row =>
      (s.measure_
        ⟨row, f, kw.set_cols_idx, s.X,
          resolveSampleSize kw.sample_size s.cfg.sample_size s.X,
          resolveCoalitionSize kw.coalition_size s.cfg.coalition_size s.X,
          s.cfg.replace⟩ s.qoi_ s.rng).1) []]
  refine List.map_congr_left ?_
  intro i hi
  exact (e2 i).symm

theorem feature_mean_of_row_influences_witness :
    (sW.feature (Sum.inr 0) X0 noKw).1 = columnMean (sW.all X0 noKw).1 0 :=
  (feature_mean_of_row_influences sW 0 X0 noKw (fun a u v => rfl)).2 rfl (by decide)
